import Mathlib

/-!
Verification of the order-creation workflow of the `idvom` repository.

The embedding below follows the Python source:
  * `src/catalog/app/models.py` — the `products` table (`Product`);
  * `src/orders/app/models.py` — the `orders` and `order_items` tables;
  * `src/orders/app/main.py` — `fetch_prices`, `reserve_stock`,
    `create_order`, `list_my_orders`;
  * `src/orders/app/db.py` — `get_session` (per-request
    `CREATE SCHEMA IF NOT EXISTS`, commit on success, rollback on error);
  * `src/catalog/app/main.py` — `update_product` (the only writer of
    `price_cents` outside the order workflow).

Machine integers of the store are modelled as `Int` (Python ints are
unbounded and the columns carry no range constraint); quantities and ids
come from pydantic-validated request fields (`ge=1`) and are `Nat`.
Tables are lists of rows; the `id` primary key of a table is reflected by
a `Nodup` well-formedness hypothesis where a proof needs it.
-/

namespace Idvom

/-- Row of `catalog.products` (src/catalog/app/models.py, class Product). -/
structure Product where
  id : Nat
  name : String
  price_cents : Int
  stock : Int
deriving Repr, DecidableEq

/-- The `catalog.products` table. -/
abbrev Catalog := List Product

/-- Row of `orders.orders` (src/orders/app/models.py, class Order).
`created_at` is wall-clock time, irrelevant to every claim, and omitted. -/
structure OrderRow where
  id : Nat
  user_id : String
  total_cents : Int
deriving Repr, DecidableEq

/-- Row of `orders.order_items` (src/orders/app/models.py, class OrderItem).
The surrogate `id` column of the row is never read by the workflow and is
omitted. -/
structure OrderItemRow where
  order_id : Nat
  product_id : Nat
  qty : Nat
  price_cents : Int
deriving Repr, DecidableEq

/-- The database state visible to the orders service: the cross-schema
`catalog.products` table plus the two tables it owns.  `nextOrderId` models
the generated primary key delivered by `session.flush()`. -/
structure DB where
  catalog : Catalog
  orders : List OrderRow
  order_items : List OrderItemRow
  nextOrderId : Nat
deriving Repr, DecidableEq

/-- SQL statements a request sends to the store, recorded as a trace.
`createSchemaIfNotExists` is executed by the `get_session` dependency of
src/orders/app/db.py before the endpoint body runs. -/
inductive Stmt where
  | createSchemaIfNotExists : Stmt
  | selectPrices : List Nat → Stmt
  | updateStock : Nat → Nat → Stmt
  | insertOrder : String → Stmt
  | insertOrderItem : Nat → Nat → Nat → Int → Stmt
  | selectOrders : String → Stmt
deriving Repr, DecidableEq

/-- The failure modes of `create_order` (all surfaced as HTTP 400 in the
source; the spec names them ValidationError, UnknownProductError and
InsufficientStockError). -/
inductive OrderError where
  | validation : OrderError
  | unknownProducts : List Nat → OrderError
  | insufficientStock : Nat → OrderError
deriving Repr, DecidableEq

/-- Response shape `OrderItemOut` of src/orders/app/schemas.py. -/
structure OrderItemOut where
  product_id : Nat
  qty : Nat
  price_cents : Int
deriving Repr, DecidableEq

/-- Response shape `OrderOut` of src/orders/app/schemas.py. -/
structure OrderOut where
  id : Nat
  user_id : String
  total_cents : Int
  items : List OrderItemOut
deriving Repr, DecidableEq

/-! ### Catalog lookups -/

/-- First row of the products table with the given id (primary-key lookup;
under the `Nodup` well-formedness of ids it is the only such row). -/
def findProduct? (cat : Catalog) (pid : Nat) : Option Product :=
  cat.find? (fun p => p.id == pid)

/-- Current price of a product, `none` when absent. -/
def priceOf (cat : Catalog) (pid : Nat) : Option Int :=
  (findProduct? cat pid).map (·.price_cents)

/-- Current stock of a product, `none` when absent. -/
def stockOf (cat : Catalog) (pid : Nat) : Option Int :=
  (findProduct? cat pid).map (·.stock)

/-- `fetch_prices` of src/orders/app/main.py:
`SELECT id, price_cents FROM catalog.products WHERE id = ANY(:ids)`, the
result rows turned into a dictionary `{id: price_cents}` (missing products
omitted).  The dictionary is modelled as the association list of the
selected rows. -/
def fetch_prices (cat : Catalog) (ids : List Nat) : List (Nat × Int) :=
  (cat.filter (fun p => ids.contains p.id)).map (fun p => (p.id, p.price_cents))

/-- Dictionary lookup `prices[pid]` / `pid in prices`. -/
def lookupPrice? (prices : List (Nat × Int)) (pid : Nat) : Option Int :=
  (prices.find? (fun r => r.1 == pid)).map (·.2)

/-! ### Normalization (create_order lines 92-95): the `combined` dict -/

/-- One step of `combined[it.product_id] = combined.get(it.product_id, 0) + it.qty`:
a Python dict keeps insertion order, so an existing key is updated in place
and a new key is appended. -/
def addItem (acc : List (Nat × Nat)) (pid qty : Nat) : List (Nat × Nat) :=
  if acc.any (fun e => e.1 == pid) then
    acc.map (fun e => if e.1 == pid then (e.1, e.2 + qty) else e)
  else
    acc ++ [(pid, qty)]

def combineAux (acc : List (Nat × Nat)) : List (Nat × Nat) → List (Nat × Nat)
  | [] => acc
  | it :: rest => combineAux (addItem acc it.1 it.2) rest

/-- The `combined` dictionary of `create_order`: entries sharing a
product id merged by summing quantities, keys in first-occurrence order. -/
def combine (items : List (Nat × Nat)) : List (Nat × Nat) :=
  combineAux [] items

/-! ### Stock reservation (reserve_stock, main.py lines 67-83) -/

/-- The WHERE clause of the conditional update:
`WHERE id = :pid AND stock >= :qty`. -/
def resMatches (pid qty : Nat) (p : Product) : Bool :=
  p.id == pid && decide ((qty : Int) ≤ p.stock)

/-- Effect of `UPDATE catalog.products SET stock = stock - :qty WHERE id = :pid
AND stock >= :qty` on the table. -/
def applyUpdate (cat : Catalog) (pid qty : Nat) : Catalog :=
  cat.map (fun p =>
    if resMatches pid qty p then { p with stock := p.stock - (qty : Int) } else p)

/-- `res.rowcount` of that update: the number of rows the WHERE clause hit. -/
def rowcount (cat : Catalog) (pid qty : Nat) : Nat :=
  (cat.filter (resMatches pid qty)).length

/-- `reserve_stock`: one conditional decrement per item, in list order,
raising (result `some pid`) as soon as a statement's rowcount is not 1.
The returned catalog is the session state at exit — on failure it still
contains the decrements of the earlier, successful statements.  The trace
lists the UPDATE statements actually sent (the failing one included: the
source checks `rowcount` only after executing it). -/
def reserve_stock (cat : Catalog) : List (Nat × Nat) → Catalog × List Stmt × Option Nat
  | [] => (cat, [], none)
  | e :: rest =>
    let cat1 := applyUpdate cat e.1 e.2
    if rowcount cat e.1 e.2 = 1 then
      let r := reserve_stock cat1 rest
      (r.1, Stmt.updateStock e.1 e.2 :: r.2.1, r.2.2)
    else
      (cat1, [Stmt.updateStock e.1 e.2], some e.1)

/-! ### create_order (main.py lines 86-133) -/

/-- Python `sorted` on a set of ints: ascending order. -/
def sortNat (l : List Nat) : List Nat :=
  List.insertionSort (· ≤ ·) l

/-- `sorted(set(product_ids) - set(prices.keys()))` of main.py line 98:
`product_ids` are the (distinct) keys of `combined`, so the set difference
is the sublist of ids with no price row. -/
def missingOf (prices : List (Nat × Int)) (product_ids : List Nat) : List Nat :=
  sortNat (product_ids.filter (fun pid => (lookupPrice? prices pid).isNone))

/-- Outcome of the endpoint body together with the session state it built
up (committed on success, discarded by rollback on error) and the trace of
statements it sent. -/
structure SessionOutcome where
  response : Except OrderError OrderOut
  db : DB
  trace : List Stmt
deriving Repr

/-- The body of `create_order` run inside an open session.  Follows
main.py lines 86-133: empty-items check, duplicate merge, price fetch and
unknown-product check, stock reservation, then insert of the order row
(flush delivers `nextOrderId`), one item row per distinct product with the
snapshotted price, and the computed total. -/
def create_order_session (db : DB) (user : String) (items : List (Nat × Nat)) :
    SessionOutcome :=
  if items.isEmpty then
    ⟨.error .validation, db, []⟩
  else
    let combined := combine items
    let product_ids := combined.map (·.1)
    let prices := fetch_prices db.catalog product_ids
    if prices.length ≠ product_ids.length then
      ⟨.error (.unknownProducts (missingOf prices product_ids)), db,
        [.selectPrices product_ids]⟩
    else
      match reserve_stock db.catalog combined with
      | (catR, updTrace, some pid) =>
        ⟨.error (.insufficientStock pid), { db with catalog := catR },
          .selectPrices product_ids :: updTrace⟩
      | (catR, updTrace, none) =>
        let oid := db.nextOrderId
        let itemRows := combined.map (fun e =>
          OrderItemRow.mk oid e.1 e.2 ((lookupPrice? prices e.1).getD 0))
        let total := itemRows.foldl (fun t i => t + (i.qty : Int) * i.price_cents) 0
        let out : OrderOut :=
          ⟨oid, user, total, itemRows.map (fun i => ⟨i.product_id, i.qty, i.price_cents⟩)⟩
        ⟨.ok out,
          ⟨catR, db.orders ++ [⟨oid, user, total⟩], db.order_items ++ itemRows, oid + 1⟩,
          .selectPrices product_ids :: updTrace
            ++ Stmt.insertOrder user
              :: itemRows.map (fun i =>
                   Stmt.insertOrderItem i.order_id i.product_id i.qty i.price_cents)⟩

/-- Final state of a request: response, committed database, statement trace. -/
structure RequestResult where
  response : Except OrderError OrderOut
  db : DB
  trace : List Stmt
deriving Repr

/-- `POST /orders` end to end: `get_session` of src/orders/app/db.py first
executes `CREATE SCHEMA IF NOT EXISTS orders` on the session, then the
endpoint body runs; on success the session is committed, on any exception
it is rolled back (the pre-request database survives unchanged). -/
def handle_create_order (db : DB) (user : String) (items : List (Nat × Nat)) :
    RequestResult :=
  let s := create_order_session db user items
  match s.response with
  | .ok out => ⟨.ok out, s.db, Stmt.createSchemaIfNotExists :: s.trace⟩
  | .error e => ⟨.error e, db, Stmt.createSchemaIfNotExists :: s.trace⟩

/-! ### list_my_orders (main.py lines 135-154) -/

/-- Insertion step of `ORDER BY id DESC`. -/
def insertDesc (o : OrderRow) : List OrderRow → List OrderRow
  | [] => [o]
  | x :: xs => if x.id ≤ o.id then o :: x :: xs else x :: insertDesc o xs

/-- `ORDER BY id DESC` over the selected rows. -/
def sortByIdDesc : List OrderRow → List OrderRow
  | [] => []
  | x :: xs => insertDesc x (sortByIdDesc xs)

/-- The materialized `o.items` relationship: the `order_items` rows whose
`order_id` matches, projected to the response shape. -/
def itemsOf (db : DB) (oid : Nat) : List OrderItemOut :=
  (db.order_items.filter (fun i => i.order_id == oid)).map
    (fun i => ⟨i.product_id, i.qty, i.price_cents⟩)

/-- `list_my_orders`: `SELECT ... WHERE user_id = :user ORDER BY id DESC`,
each order returned with its items and its stored `total_cents`. -/
def list_my_orders (db : DB) (user : String) : List OrderOut :=
  (sortByIdDesc (db.orders.filter (fun o => o.user_id == user))).map
    (fun o => ⟨o.id, o.user_id, o.total_cents, itemsOf db o.id⟩)

/-- `GET /orders/me` end to end, with the statements sent and the (unchanged)
database after commit. -/
def handle_list_my_orders (db : DB) (user : String) :
    List OrderOut × DB × List Stmt :=
  (list_my_orders db user, db,
    [Stmt.createSchemaIfNotExists, Stmt.selectOrders user])

/-! ### update_product (src/catalog/app/main.py, PUT /products/pid) -/

/-- The catalog service's product update: looks the row up by primary key
and overwrites `name`, `price_cents` and `stock` (absent id: 404, no
change — the map below then touches nothing). -/
def update_product (db : DB) (pid : Nat) (name : String) (price stock : Int) : DB :=
  { db with
    catalog := db.catalog.map (fun p =>
      if p.id == pid then
        { p with name := name, price_cents := price, stock := stock }
      else p) }

/-! ### Well-formedness -/

/-- `id` is the primary key of `catalog.products`. -/
def catalogWF (cat : Catalog) : Prop :=
  (cat.map (·.id)).Nodup

/-- `id` is the primary key of `orders.orders`. -/
def ordersWF (db : DB) : Prop :=
  (db.orders.map (·.id)).Nodup

/-- Every stock value of the products table is non-negative. -/
def stocksNonneg (cat : Catalog) : Prop :=
  ∀ p ∈ cat, 0 ≤ p.stock

instance (cat : Catalog) : Decidable (catalogWF cat) := by
  unfold catalogWF; infer_instance

instance (db : DB) : Decidable (ordersWF db) := by
  unfold ordersWF; infer_instance

instance (cat : Catalog) : Decidable (stocksNonneg cat) := by
  unfold stocksNonneg; infer_instance

/-- First-occurrence deduplication of a list of ids: what iterating a
Python dict's keys yields after inserting the ids left to right. -/
def dedupFO (l : List Nat) : List Nat :=
  l.foldl (fun acc x => if x ∈ acc then acc else acc ++ [x]) []

/-! ### Lemmas about normalization -/

theorem addItem_keys (acc : List (Nat × Nat)) (pid q : Nat) :
    (addItem acc pid q).map (·.1) =
      if pid ∈ acc.map (·.1) then acc.map (·.1) else acc.map (·.1) ++ [pid] := by
  unfold addItem
  by_cases h : pid ∈ acc.map (·.1)
  · rcases List.mem_map.mp h with ⟨e, he, hq⟩
    have hany : acc.any (fun e => e.1 == pid) = true :=
      List.any_eq_true.mpr ⟨e, he, by simp [hq]⟩
    simp only [hany, if_pos h, if_true]
    rw [List.map_map]
    apply List.map_congr_left
    intro a _
    by_cases ha : a.1 = pid <;> simp [Function.comp, ha]
  · have hany : acc.any (fun e => e.1 == pid) = false := by
      rw [Bool.eq_false_iff]
      intro hc
      rcases List.any_eq_true.mp hc with ⟨e, he, hq⟩
      exact h (List.mem_map.mpr ⟨e, he, by simpa using hq⟩)
    simp [hany, h]

theorem addItem_keys_mem (acc : List (Nat × Nat)) (pid q x : Nat) :
    x ∈ (addItem acc pid q).map (·.1) ↔ x ∈ acc.map (·.1) ∨ x = pid := by
  rw [addItem_keys]
  by_cases h : pid ∈ acc.map (·.1)
  · simp only [if_pos h]
    constructor
    · exact Or.inl
    · rintro (hx | rfl)
      · exact hx
      · exact h
  · simp [if_neg h]

theorem combineAux_keys_mem (l : List (Nat × Nat)) :
    ∀ (acc : List (Nat × Nat)) (x : Nat),
      x ∈ (combineAux acc l).map (·.1) ↔ x ∈ acc.map (·.1) ∨ x ∈ l.map (·.1) := by
  induction l with
  | nil => intro acc x; simp [combineAux]
  | cons e rest ih =>
    intro acc x
    rw [combineAux, ih, addItem_keys_mem]
    simp only [List.map_cons, List.mem_cons]
    tauto

/-- A product id occurs among the merged items exactly when it occurs in
the submitted request. -/
theorem combine_keys_mem (items : List (Nat × Nat)) (x : Nat) :
    x ∈ (combine items).map (·.1) ↔ x ∈ items.map (·.1) := by
  rw [combine, combineAux_keys_mem]
  simp

theorem combineAux_keys_nodup (l : List (Nat × Nat)) :
    ∀ acc : List (Nat × Nat),
      (acc.map (·.1)).Nodup → ((combineAux acc l).map (·.1)).Nodup := by
  induction l with
  | nil => intro acc h; exact h
  | cons e rest ih =>
    intro acc h
    rw [combineAux]
    apply ih
    rw [addItem_keys]
    by_cases hm : e.1 ∈ acc.map (·.1)
    · simpa [hm] using h
    · rw [if_neg hm, List.nodup_append]
      refine ⟨h, List.nodup_singleton _, fun x hx hx' => ?_⟩
      simp only [List.mem_singleton] at hx'
      subst hx'
      exact hm hx

/-- The merged items carry pairwise-distinct product ids (they are the
keys of a Python dict). -/
theorem combine_keys_nodup (items : List (Nat × Nat)) :
    ((combine items).map (·.1)).Nodup :=
  combineAux_keys_nodup items [] (by simp)

theorem combineAux_length_le (l : List (Nat × Nat)) :
    ∀ acc : List (Nat × Nat), acc.length ≤ (combineAux acc l).length := by
  induction l with
  | nil => intro acc; simp [combineAux]
  | cons e rest ih =>
    intro acc
    rw [combineAux]
    refine le_trans ?_ (ih (addItem acc e.1 e.2))
    unfold addItem
    by_cases h : acc.any (fun x => x.1 == e.1) <;> simp [h]

/-- Merging a non-empty request yields a non-empty item list. -/
theorem combine_ne_nil (items : List (Nat × Nat)) (h : items ≠ []) :
    combine items ≠ [] := by
  cases items with
  | nil => exact absurd rfl h
  | cons e rest =>
    have : (addItem [] e.1 e.2).length ≤ (combineAux (addItem [] e.1 e.2) rest).length :=
      combineAux_length_le rest _
    have hlen : 1 ≤ (combine (e :: rest)).length := by
      simpa [combine, combineAux, addItem] using this
    intro hc
    rw [hc] at hlen
    simp at hlen

theorem combineAux_of_disjoint (l : List (Nat × Nat)) :
    ∀ acc : List (Nat × Nat),
      (∀ x ∈ l.map (·.1), x ∉ acc.map (·.1)) → (l.map (·.1)).Nodup →
      combineAux acc l = acc ++ l := by
  induction l with
  | nil => intro acc _ _; simp [combineAux]
  | cons e rest ih =>
    intro acc hdisj hnd
    have hnd' := hnd
    rw [List.map_cons, List.nodup_cons] at hnd'
    have hnotin : e.1 ∉ acc.map (·.1) := hdisj e.1 (by simp)
    have hadd : addItem acc e.1 e.2 = acc ++ [e] := by
      unfold addItem
      have hany : acc.any (fun x => x.1 == e.1) = false := by
        rw [Bool.eq_false_iff]
        intro hc
        rcases List.any_eq_true.mp hc with ⟨x, hx, hq⟩
        exact hnotin (List.mem_map.mpr ⟨x, hx, by simpa using hq⟩)
      simp [hany]
    rw [combineAux, hadd, ih (acc ++ [e]) ?_ ?_]
    · simp
    · intro x hx
      simp only [List.map_append, List.mem_append, List.map_cons]
      rintro (hxa | hxe)
      · exact hdisj x (by simp [hx]) hxa
      · have hxne : x ≠ e.1 := by
          intro hc; rw [hc] at hx; exact hnd'.1 hx
        simp at hxe
        exact hxne hxe
    · exact hnd'.2

/-- A list whose keys are already pairwise distinct is left unchanged by
merging; in particular `combine` is idempotent. -/
theorem combine_of_keys_nodup (l : List (Nat × Nat)) (h : (l.map (·.1)).Nodup) :
    combine l = l := by
  have := combineAux_of_disjoint l [] (by simp) h
  simpa [combine] using this

theorem combine_idem (items : List (Nat × Nat)) :
    combine (combine items) = combine items :=
  combine_of_keys_nodup _ (combine_keys_nodup items)

/-- The keys of the merged request are the submitted product ids in
first-occurrence order. -/
theorem combine_keys_eq_dedupFO (items : List (Nat × Nat)) :
    (combine items).map (·.1) = dedupFO (items.map (·.1)) := by
  have main : ∀ (l acc : List (Nat × Nat)),
      (combineAux acc l).map (·.1) =
        l.foldl (fun a e => if e.1 ∈ a then a else a ++ [e.1]) (acc.map (·.1)) := by
    intro l
    induction l with
    | nil => intro acc; simp [combineAux]
    | cons e rest ih =>
      intro acc
      rw [combineAux, ih, addItem_keys]
      simp [List.foldl_cons]
  rw [combine, dedupFO, List.foldl_map]
  simpa using main items []

/-! ### Lemmas about the catalog and the conditional update -/

theorem find?_congr {α : Type} (l : List α) (p q : α → Bool)
    (h : ∀ a ∈ l, p a = q a) : l.find? p = l.find? q := by
  induction l with
  | nil => rfl
  | cons a rest ih =>
    have ha := h a (by simp)
    by_cases hp : p a
    · rw [List.find?_cons_of_pos _ hp, List.find?_cons_of_pos _ (ha ▸ hp)]
    · rw [List.find?_cons_of_neg _ hp, List.find?_cons_of_neg _ (ha ▸ hp)]
      exact ih fun a hm => h a (by simp [hm])

theorem resMatches_id (pid q : Nat) (p : Product) (h : resMatches pid q p = true) :
    p.id = pid ∧ (q : Int) ≤ p.stock := by
  simpa [resMatches] using h

/-- On a table whose ids are a primary key, the lookup finds exactly the
given member row. -/
theorem findProduct?_eq_of_mem (cat : Catalog) (p : Product) (pid : Nat)
    (hwf : catalogWF cat) (hp : p ∈ cat) (hid : p.id = pid) :
    findProduct? cat pid = some p := by
  induction cat with
  | nil => cases hp
  | cons a rest ih =>
    have hwf' := hwf
    rw [catalogWF, List.map_cons, List.nodup_cons] at hwf'
    rcases List.mem_cons.mp hp with rfl | hmem
    · unfold findProduct?
      rw [List.find?_cons_of_pos _ (by simp [hid])]
    · have ha : ¬ a.id = pid := by
        intro hc
        apply hwf'.1
        rw [hc, ← hid]
        exact List.mem_map_of_mem _ hmem
      unfold findProduct?
      rw [List.find?_cons_of_neg _ (by simp [ha])]
      exact ih hwf'.2 hmem

theorem rowcount_le_one (cat : Catalog) (pid q : Nat) (hwf : catalogWF cat) :
    rowcount cat pid q ≤ 1 := by
  induction cat with
  | nil => simp [rowcount]
  | cons a rest ih =>
    have hwf' := hwf
    rw [catalogWF, List.map_cons, List.nodup_cons] at hwf'
    by_cases hm : resMatches pid q a
    · have h0 : rest.filter (resMatches pid q) = [] := by
        rw [List.filter_eq_nil_iff]
        intro p hp hpm
        apply hwf'.1
        rw [(resMatches_id pid q a hm).1, ← (resMatches_id pid q p hpm).1]
        exact List.mem_map_of_mem _ hp
      simp [rowcount, List.filter_cons, hm, h0]
    · simpa [rowcount, List.filter_cons, hm] using ih hwf'.2

theorem rowcount_pos_iff (cat : Catalog) (pid q : Nat) :
    0 < rowcount cat pid q ↔ ∃ p ∈ cat, p.id = pid ∧ (q : Int) ≤ p.stock := by
  rw [rowcount, List.length_pos_iff_exists_mem]
  constructor
  · rintro ⟨p, hp⟩
    rw [List.mem_filter] at hp
    exact ⟨p, hp.1, resMatches_id pid q p hp.2⟩
  · rintro ⟨p, hp, hid, hs⟩
    exact ⟨p, List.mem_filter.mpr ⟨hp, by simp [resMatches, hid, hs]⟩⟩

/-- The conditional update hits exactly one row precisely when the product
exists and has at least the requested stock. -/
theorem rowcount_eq_one_iff (cat : Catalog) (pid q : Nat) (hwf : catalogWF cat) :
    rowcount cat pid q = 1 ↔ ∃ p ∈ cat, p.id = pid ∧ (q : Int) ≤ p.stock := by
  rw [← rowcount_pos_iff]
  have := rowcount_le_one cat pid q hwf
  omega

theorem findProduct?_applyUpdate (cat : Catalog) (pid q x : Nat) :
    findProduct? (applyUpdate cat pid q) x =
      (findProduct? cat x).map (fun p =>
        if resMatches pid q p then { p with stock := p.stock - (q : Int) } else p) := by
  unfold findProduct? applyUpdate
  rw [List.find?_map]
  congr 1
  apply find?_congr
  intro p _
  by_cases h : resMatches pid q p <;> simp [Function.comp, h]

theorem stockOf_applyUpdate_ne (cat : Catalog) (pid q x : Nat) (h : x ≠ pid) :
    stockOf (applyUpdate cat pid q) x = stockOf cat x := by
  unfold stockOf
  rw [findProduct?_applyUpdate]
  cases hf : findProduct? cat x with
  | none => rfl
  | some r =>
    have hr : r.id = x := by
      have := List.find?_some hf
      simpa using this
    have hm : resMatches pid q r = false := by
      simp [resMatches, hr, h]
    simp [hm]

theorem stockOf_applyUpdate_self (cat : Catalog) (pid q : Nat) (hwf : catalogWF cat)
    (h : rowcount cat pid q = 1) :
    stockOf (applyUpdate cat pid q) pid = (stockOf cat pid).map (· - (q : Int)) := by
  rcases (rowcount_eq_one_iff cat pid q hwf).mp h with ⟨p, hp, hid, hs⟩
  have hf : findProduct? cat pid = some p := findProduct?_eq_of_mem cat p pid hwf hp hid
  have hm : resMatches pid q p = true := by simp [resMatches, hid, hs]
  unfold stockOf
  rw [findProduct?_applyUpdate, hf]
  simp [hm]

theorem applyUpdate_map_id (cat : Catalog) (pid q : Nat) :
    (applyUpdate cat pid q).map (·.id) = cat.map (·.id) := by
  unfold applyUpdate
  rw [List.map_map]
  apply List.map_congr_left
  intro p _
  by_cases h : resMatches pid q p <;> simp [Function.comp, h]

theorem catalogWF_applyUpdate (cat : Catalog) (pid q : Nat) (hwf : catalogWF cat) :
    catalogWF (applyUpdate cat pid q) := by
  rw [catalogWF, applyUpdate_map_id]
  exact hwf

theorem rowcount_applyUpdate_ne (cat : Catalog) (pid q x q' : Nat) (h : x ≠ pid) :
    rowcount (applyUpdate cat pid q) x q' = rowcount cat x q' := by
  unfold rowcount applyUpdate
  rw [← List.countP_eq_length_filter, ← List.countP_eq_length_filter, List.countP_map]
  apply List.countP_congr
  intro p _
  simp only [Function.comp_apply]
  by_cases hm : resMatches pid q p
  · have hid : p.id = pid := (resMatches_id pid q p hm).1
    have hne : pid ≠ x := fun hc => h hc.symm
    have h1 : resMatches x q'
        (if resMatches pid q p then { p with stock := p.stock - (q : Int) } else p) = false := by
      rw [if_pos hm]
      simp [resMatches, hid, hne]
    have h2 : resMatches x q' p = false := by
      simp [resMatches, hid, hne]
    rw [h1, h2]
  · rw [if_neg hm]

/-- The guarded decrement never makes any stock negative: a matched row
had `stock ≥ qty`, an unmatched row is untouched. -/
theorem stocksNonneg_applyUpdate (cat : Catalog) (pid q : Nat)
    (h : stocksNonneg cat) : stocksNonneg (applyUpdate cat pid q) := by
  intro p' hp'
  rcases List.mem_map.mp hp' with ⟨p, hp, hq⟩
  by_cases hm : resMatches pid q p
  · have hs := (resMatches_id pid q p hm).2
    rw [← hq]
    simp only [hm, if_true]
    omega
  · rw [← hq]
    simp only [hm, if_false]
    exact h p hp

/-! ### Lemmas about the reservation loop -/

theorem reserve_ok (l : List (Nat × Nat)) :
    ∀ cat : Catalog, catalogWF cat → (l.map (·.1)).Nodup →
      (∀ e ∈ l, ∃ s, stockOf cat e.1 = some s ∧ (e.2 : Int) ≤ s) →
      (reserve_stock cat l).2.2 = none
      ∧ (∀ e ∈ l, stockOf (reserve_stock cat l).1 e.1
           = (stockOf cat e.1).map (· - (e.2 : Int)))
      ∧ (∀ x, x ∉ l.map (·.1) → stockOf (reserve_stock cat l).1 x = stockOf cat x)
      ∧ (reserve_stock cat l).1.map (·.id) = cat.map (·.id) := by
  induction l with
  | nil =>
    intro cat _ _ _
    exact ⟨rfl, by simp, fun x _ => rfl, rfl⟩
  | cons e rest ih =>
    intro cat hwf hkeys hsuff
    have hkeys' := hkeys
    rw [List.map_cons, List.nodup_cons] at hkeys'
    rcases hsuff e (by simp) with ⟨s, hs, hqs⟩
    have hrow : rowcount cat e.1 e.2 = 1 := by
      rw [rowcount_eq_one_iff cat e.1 e.2 hwf]
      rcases Option.map_eq_some'.mp hs with ⟨p, hfp, hps⟩
      refine ⟨p, List.mem_of_find?_eq_some hfp, ?_, by rw [hps]; exact hqs⟩
      have := List.find?_some hfp
      simpa using this
    have hred : reserve_stock cat (e :: rest) =
        ((reserve_stock (applyUpdate cat e.1 e.2) rest).1,
         Stmt.updateStock e.1 e.2 :: (reserve_stock (applyUpdate cat e.1 e.2) rest).2.1,
         (reserve_stock (applyUpdate cat e.1 e.2) rest).2.2) := by
      rw [reserve_stock]
      simp [hrow]
    have hne : ∀ a ∈ rest, a.1 ≠ e.1 := by
      intro a ha hc
      exact hkeys'.1 (hc ▸ List.mem_map_of_mem _ ha)
    rcases ih (applyUpdate cat e.1 e.2) (catalogWF_applyUpdate cat e.1 e.2 hwf)
        hkeys'.2
        (fun a ha => by
          rcases hsuff a (by simp [ha]) with ⟨s', hs', hqs'⟩
          exact ⟨s', by rw [stockOf_applyUpdate_ne cat e.1 e.2 a.1 (hne a ha)]; exact hs',
            hqs'⟩)
      with ⟨hnone, hdec, hframe, hids⟩
    rw [hred]
    refine ⟨hnone, ?_, ?_, by rw [hids, applyUpdate_map_id]⟩
    · intro a ha
      rcases List.mem_cons.mp ha with rfl | hmem
      · rw [hframe a.1 (fun hc => hkeys'.1 hc),
          stockOf_applyUpdate_self cat a.1 a.2 hwf hrow]
      · rw [hdec a hmem, stockOf_applyUpdate_ne cat e.1 e.2 a.1 (hne a hmem)]
    · intro x hx
      rw [List.map_cons, List.mem_cons] at hx
      push_neg at hx
      rw [hframe x hx.2, stockOf_applyUpdate_ne cat e.1 e.2 x hx.1]

theorem reserve_fail (l : List (Nat × Nat)) :
    ∀ cat : Catalog, (l.map (·.1)).Nodup →
      ∀ e₀, l.find? (fun e => !(rowcount cat e.1 e.2 == 1)) = some e₀ →
      (reserve_stock cat l).2.2 = some e₀.1 := by
  induction l with
  | nil => intro cat _ e₀ h; simp at h
  | cons e rest ih =>
    intro cat hkeys e₀ hfind
    have hkeys' := hkeys
    rw [List.map_cons, List.nodup_cons] at hkeys'
    by_cases hrow : rowcount cat e.1 e.2 = 1
    · rw [List.find?_cons_of_neg _ (by simp [hrow])] at hfind
      have hcongr : rest.find? (fun a => !(rowcount cat a.1 a.2 == 1))
          = rest.find? (fun a => !(rowcount (applyUpdate cat e.1 e.2) a.1 a.2 == 1)) := by
        apply find?_congr
        intro a ha
        have hane : a.1 ≠ e.1 := by
          intro hc
          exact hkeys'.1 (hc ▸ List.mem_map_of_mem _ ha)
        rw [rowcount_applyUpdate_ne cat e.1 e.2 a.1 a.2 hane]
      rw [hcongr] at hfind
      have := ih (applyUpdate cat e.1 e.2) hkeys'.2 e₀ hfind
      rw [reserve_stock]
      simpa [hrow] using this
    · rw [List.find?_cons_of_pos _ (by simp [hrow])] at hfind
      have he : e = e₀ := by injection hfind
      subst he
      rw [reserve_stock]
      simp [hrow]

theorem stocksNonneg_reserve (l : List (Nat × Nat)) :
    ∀ cat : Catalog, stocksNonneg cat → stocksNonneg (reserve_stock cat l).1 := by
  induction l with
  | nil => intro cat h; exact h
  | cons e rest ih =>
    intro cat h
    by_cases hrow : rowcount cat e.1 e.2 = 1
    · have := ih (applyUpdate cat e.1 e.2) (stocksNonneg_applyUpdate cat e.1 e.2 h)
      rw [reserve_stock]
      simpa [hrow] using this
    · rw [reserve_stock]
      simpa [hrow] using stocksNonneg_applyUpdate cat e.1 e.2 h

/-- Row-wise relation between the products table before and after a run of
the reservation loop over the items `l`: the identity, name and price of
every row survive untouched, and a row's stock either survives or was
decremented once, by the quantity the request holds for its id, under the
`stock ≥ qty` guard. -/
def prodFrame (l : List (Nat × Nat)) (p p' : Product) : Prop :=
  p'.id = p.id ∧ p'.name = p.name ∧ p'.price_cents = p.price_cents ∧
    (p'.stock = p.stock ∨
      ∃ q : Nat, (p.id, q) ∈ l ∧ (q : Int) ≤ p.stock ∧ p'.stock = p.stock - (q : Int))

theorem applyUpdate_forall₂ (cat : Catalog) (pid q : Nat) :
    List.Forall₂ (fun p p' : Product =>
        p'.id = p.id ∧ p'.name = p.name ∧ p'.price_cents = p.price_cents ∧
          (p'.stock = p.stock ∨
            (p.id = pid ∧ (q : Int) ≤ p.stock ∧ p'.stock = p.stock - (q : Int))))
      cat (applyUpdate cat pid q) := by
  unfold applyUpdate
  rw [List.forall₂_map_right_iff]
  rw [List.forall₂_same]
  intro p _
  by_cases hm : resMatches pid q p
  · rcases resMatches_id pid q p hm with ⟨hid, hs⟩
    rw [if_pos hm]
    exact ⟨rfl, rfl, rfl, Or.inr ⟨hid, hs, rfl⟩⟩
  · rw [if_neg hm]
    exact ⟨rfl, rfl, rfl, Or.inl rfl⟩

theorem forall₂_comp {α : Type} {R S T : α → α → Prop}
    {l₁ l₂ l₃ : List α}
    (h1 : List.Forall₂ R l₁ l₂) (h2 : List.Forall₂ S l₂ l₃)
    (hRS : ∀ a b c, R a b → S b c → T a c) :
    List.Forall₂ T l₁ l₃ := by
  induction h1 generalizing l₃ with
  | nil => cases h2; exact .nil
  | cons hab h1' ih =>
    cases h2 with
    | cons hbc h2' => exact .cons (hRS _ _ _ hab hbc) (ih h2')

theorem reserve_frame (l : List (Nat × Nat)) :
    ∀ cat : Catalog, (l.map (·.1)).Nodup →
      List.Forall₂ (prodFrame l) cat (reserve_stock cat l).1 := by
  induction l with
  | nil =>
    intro cat _
    exact List.forall₂_same.mpr fun p _ => ⟨rfl, rfl, rfl, Or.inl rfl⟩
  | cons e rest ih =>
    intro cat hkeys
    have hkeys' := hkeys
    rw [List.map_cons, List.nodup_cons] at hkeys'
    by_cases hrow : rowcount cat e.1 e.2 = 1
    · have hstep := applyUpdate_forall₂ cat e.1 e.2
      have hrest := ih (applyUpdate cat e.1 e.2) hkeys'.2
      have hcomp := forall₂_comp hstep hrest (T := prodFrame (e :: rest)) ?_
      · rw [reserve_stock]
        simpa [hrow] using hcomp
      · rintro a b c ⟨hid1, hnm1, hpc1, hst1⟩ ⟨hid2, hnm2, hpc2, hst2⟩
        refine ⟨hid2.trans hid1, hnm2.trans hnm1, hpc2.trans hpc1, ?_⟩
        rcases hst1 with hsame1 | ⟨hide, hge, hdec1⟩
        · rcases hst2 with hsame2 | ⟨q', hq'mem, hq'ge, hdec2⟩
          · exact Or.inl (hsame2.trans hsame1)
          · exact Or.inr ⟨q', by rw [hid1] at hq'mem; exact List.mem_cons_of_mem _ hq'mem,
              by rw [← hsame1]; exact hq'ge, by rw [hdec2, hsame1]⟩
        · rcases hst2 with hsame2 | ⟨q', hq'mem, _, _⟩
          · refine Or.inr ⟨e.2, ?_, hge, by rw [hsame2, hdec1]⟩
            rw [hide]
            exact List.mem_cons_self _ _
          · exfalso
            apply hkeys'.1
            rw [hid1, hide] at hq'mem
            exact List.mem_map.mpr ⟨(e.1, q'), hq'mem, rfl⟩
    · have := applyUpdate_forall₂ cat e.1 e.2
      rw [reserve_stock]
      simp only [hrow, if_false]
      refine this.imp ?_
      rintro a b ⟨hid, hnm, hpc, hst⟩
      refine ⟨hid, hnm, hpc, ?_⟩
      rcases hst with hsame | ⟨hide, hge, hdec⟩
      · exact Or.inl hsame
      · refine Or.inr ⟨e.2, ?_, hge, hdec⟩
        rw [hide]
        exact List.mem_cons_self _ _

/-! ### Lemmas about the price fetch -/

/-- For a requested id, the dictionary built from the price query answers
exactly the catalog's current price. -/
theorem lookupPrice?_fetch (cat : Catalog) (ids : List Nat) (pid : Nat)
    (hmem : pid ∈ ids) :
    lookupPrice? (fetch_prices cat ids) pid = priceOf cat pid := by
  induction cat with
  | nil => simp [lookupPrice?, fetch_prices, priceOf, findProduct?]
  | cons p rest ih =>
    by_cases hid : p.id = pid
    · have hc : ids.contains p.id = true := by
        rw [hid]
        exact List.elem_eq_true_of_mem hmem
      unfold fetch_prices at ih ⊢
      rw [List.filter_cons, if_pos (by simpa using hc)]
      unfold lookupPrice? priceOf findProduct?
      rw [List.map_cons, List.find?_cons_of_pos _ (by simpa using hid),
        List.find?_cons_of_pos _ (by simpa using hid)]
      simp
    · unfold fetch_prices at ih ⊢
      rw [List.filter_cons]
      by_cases hc : ids.contains p.id
      · rw [if_pos (by simpa using hc)]
        unfold lookupPrice? priceOf findProduct? at ih ⊢
        rw [List.map_cons, List.find?_cons_of_neg _ (by simpa using hid),
          List.find?_cons_of_neg _ (by simpa using hid)]
        exact ih
      · rw [if_neg (by simpa using hc)]
        unfold priceOf findProduct? at ih ⊢
        rw [List.find?_cons_of_neg _ (by simpa using hid)]
        exact ih

theorem fetch_keys_mem (cat : Catalog) (ids : List Nat) (x : Nat) :
    x ∈ (cat.filter (fun p => ids.contains p.id)).map (·.id)
      ↔ x ∈ ids ∧ (findProduct? cat x).isSome := by
  constructor
  · intro hx
    rcases List.mem_map.mp hx with ⟨p, hpF, rfl⟩
    rw [List.mem_filter] at hpF
    refine ⟨by simpa using hpF.2, ?_⟩
    rw [findProduct?, List.find?_isSome]
    exact ⟨p, hpF.1, by simp⟩
  · rintro ⟨hxids, hsome⟩
    rw [findProduct?, List.find?_isSome] at hsome
    rcases hsome with ⟨p, hp, hpid⟩
    have hpid' : p.id = x := by simpa using hpid
    apply List.mem_map.mpr
    refine ⟨p, List.mem_filter.mpr ⟨hp, ?_⟩, hpid'⟩
    rw [hpid']
    simpa using hxids

theorem fetch_keys_nodup (cat : Catalog) (ids : List Nat) (hwf : catalogWF cat) :
    ((cat.filter (fun p => ids.contains p.id)).map (·.id)).Nodup := by
  have hsub : List.Sublist ((cat.filter (fun p => ids.contains p.id)).map (·.id))
      (cat.map (·.id)) :=
    (List.filter_sublist cat).map _
  exact hwf.sublist hsub

/-- When every requested id exists, the price dictionary is exactly as
large as the request (the `len(prices) != len(product_ids)` guard passes). -/
theorem fetch_prices_length_eq (cat : Catalog) (ids : List Nat)
    (hwf : catalogWF cat) (hnd : ids.Nodup)
    (hex : ∀ pid ∈ ids, (findProduct? cat pid).isSome) :
    (fetch_prices cat ids).length = ids.length := by
  have hK : ((cat.filter (fun p => ids.contains p.id)).map (·.id)).toFinset
      = ids.toFinset := by
    ext x
    simp only [List.mem_toFinset]
    rw [fetch_keys_mem]
    exact ⟨fun h => h.1, fun h => ⟨h, hex x h⟩⟩
  have h1 := List.toFinset_card_of_nodup (fetch_keys_nodup cat ids hwf)
  have h2 := List.toFinset_card_of_nodup hnd
  calc (fetch_prices cat ids).length
      = ((cat.filter (fun p => ids.contains p.id)).map (·.id)).length := by
        unfold fetch_prices
        rw [List.length_map, List.length_map]
    _ = ids.length := by rw [← h1, hK, h2]

/-- When some requested id is absent, the price dictionary is strictly
smaller than the request (the guard fires). -/
theorem fetch_prices_length_lt (cat : Catalog) (ids : List Nat)
    (hwf : catalogWF cat) (hnd : ids.Nodup)
    (hmiss : ∃ pid ∈ ids, findProduct? cat pid = none) :
    (fetch_prices cat ids).length < ids.length := by
  rcases hmiss with ⟨pid, hpid, hnone⟩
  have hss : ((cat.filter (fun p => ids.contains p.id)).map (·.id)).toFinset
      ⊂ ids.toFinset := by
    constructor
    · intro x hx
      rw [List.mem_toFinset] at hx ⊢
      exact ((fetch_keys_mem cat ids x).mp hx).1
    · intro hsub
      have := hsub (List.mem_toFinset.mpr hpid)
      rw [List.mem_toFinset, fetch_keys_mem] at this
      rw [hnone] at this
      simp at this
  have h1 := List.toFinset_card_of_nodup (fetch_keys_nodup cat ids hwf)
  have h2 := List.toFinset_card_of_nodup hnd
  calc (fetch_prices cat ids).length
      = ((cat.filter (fun p => ids.contains p.id)).map (·.id)).length := by
        unfold fetch_prices
        rw [List.length_map, List.length_map]
    _ < ids.length := by
        rw [← h1, ← h2]
        exact Finset.card_lt_card hss

/-! ### Small helpers -/

theorem isEmpty_false_of_ne_nil {α : Type} {l : List α} (h : l ≠ []) :
    l.isEmpty = false := by
  cases l with
  | nil => exact absurd rfl h
  | cons a t => rfl

theorem foldl_add_map {α : Type} (g : α → Int) (l : List α) :
    ∀ a : Int, l.foldl (fun t i => t + g i) a = a + (l.map g).sum := by
  induction l with
  | nil => intro a; simp
  | cons x xs ih =>
    intro a
    rw [List.foldl_cons, ih, List.map_cons, List.sum_cons]
    ring

/-! ### Branch-by-branch reduction of the endpoint -/

/-- The item rows built in the success path of `create_order`, with the
price snapshotted from the fetched dictionary. -/
def snapshotRows (db : DB) (items : List (Nat × Nat)) : List OrderItemRow :=
  (combine items).map (fun e =>
    OrderItemRow.mk db.nextOrderId e.1 e.2
      ((lookupPrice? (fetch_prices db.catalog ((combine items).map (·.1))) e.1).getD 0))

/-- The total the success path of `create_order` accumulates. -/
def orderTotal (db : DB) (items : List (Nat × Nat)) : Int :=
  (snapshotRows db items).foldl (fun t i => t + (i.qty : Int) * i.price_cents) 0

/-- The sorted missing-id list an unknown-product failure reports. -/
def missingIds (db : DB) (items : List (Nat × Nat)) : List Nat :=
  missingOf (fetch_prices db.catalog ((combine items).map (·.1)))
    ((combine items).map (·.1))

theorem create_order_session_unknown (db : DB) (user : String)
    (items : List (Nat × Nat)) (hne : items ≠ [])
    (hlen : (fetch_prices db.catalog ((combine items).map (·.1))).length
        ≠ ((combine items).map (·.1)).length) :
    create_order_session db user items =
      ⟨.error (.unknownProducts (missingIds db items)), db,
       [Stmt.selectPrices ((combine items).map (·.1))]⟩ := by
  have hlen' : (fetch_prices db.catalog ((combine items).map (·.1))).length
      ≠ (combine items).length := by simpa using hlen
  unfold create_order_session missingIds
  rw [isEmpty_false_of_ne_nil hne]
  simp [hlen']

theorem create_order_session_insufficient (db : DB) (user : String)
    (items : List (Nat × Nat)) (catR : Catalog) (trR : List Stmt) (pid : Nat)
    (hne : items ≠ [])
    (hlen : (fetch_prices db.catalog ((combine items).map (·.1))).length
        = ((combine items).map (·.1)).length)
    (hR : reserve_stock db.catalog (combine items) = (catR, trR, some pid)) :
    create_order_session db user items =
      ⟨.error (.insufficientStock pid), { db with catalog := catR },
       Stmt.selectPrices ((combine items).map (·.1)) :: trR⟩ := by
  have hlen' : (fetch_prices db.catalog ((combine items).map (·.1))).length
      = (combine items).length := by simpa using hlen
  unfold create_order_session
  rw [isEmpty_false_of_ne_nil hne]
  simp [hlen', hR]

theorem create_order_session_ok (db : DB) (user : String)
    (items : List (Nat × Nat)) (catR : Catalog) (trR : List Stmt)
    (hne : items ≠ [])
    (hlen : (fetch_prices db.catalog ((combine items).map (·.1))).length
        = ((combine items).map (·.1)).length)
    (hR : reserve_stock db.catalog (combine items) = (catR, trR, none)) :
    create_order_session db user items =
      ⟨.ok ⟨db.nextOrderId, user, orderTotal db items,
            (snapshotRows db items).map (fun i => ⟨i.product_id, i.qty, i.price_cents⟩)⟩,
       ⟨catR, db.orders ++ [⟨db.nextOrderId, user, orderTotal db items⟩],
        db.order_items ++ snapshotRows db items, db.nextOrderId + 1⟩,
       Stmt.selectPrices ((combine items).map (·.1)) :: trR
         ++ Stmt.insertOrder user
           :: (snapshotRows db items).map
                (fun i => Stmt.insertOrderItem i.order_id i.product_id i.qty i.price_cents)⟩ := by
  have hlen' : (fetch_prices db.catalog ((combine items).map (·.1))).length
      = (combine items).length := by simpa using hlen
  unfold create_order_session snapshotRows orderTotal
  rw [isEmpty_false_of_ne_nil hne]
  simp [hlen', hR, snapshotRows]

theorem create_order_session_validation (db : DB) (user : String) :
    create_order_session db user [] = ⟨.error .validation, db, []⟩ := rfl

theorem handle_create_order_of_error (db : DB) (user : String)
    (items : List (Nat × Nat)) (e : OrderError) (dbS : DB) (tr : List Stmt)
    (h : create_order_session db user items = ⟨.error e, dbS, tr⟩) :
    handle_create_order db user items =
      ⟨.error e, db, Stmt.createSchemaIfNotExists :: tr⟩ := by
  unfold handle_create_order
  rw [h]

theorem handle_create_order_of_ok (db : DB) (user : String)
    (items : List (Nat × Nat)) (out : OrderOut) (dbS : DB) (tr : List Stmt)
    (h : create_order_session db user items = ⟨.ok out, dbS, tr⟩) :
    handle_create_order db user items =
      ⟨.ok out, dbS, Stmt.createSchemaIfNotExists :: tr⟩ := by
  unfold handle_create_order
  rw [h]

/-- The committed database of a `POST /orders` request is either the
pre-request one (every failure rolls back) or, on success, carries the
reservation loop's catalog. -/
theorem handle_db_cases (db : DB) (user : String) (items : List (Nat × Nat)) :
    (handle_create_order db user items).db = db
    ∨ (handle_create_order db user items).db.catalog
        = (reserve_stock db.catalog (combine items)).1 := by
  by_cases hne : items = []
  · subst hne
    left
    rw [handle_create_order_of_error db user [] .validation db []
      (create_order_session_validation db user)]
  · by_cases hlen : (fetch_prices db.catalog ((combine items).map (·.1))).length
        = ((combine items).map (·.1)).length
    · rcases hR : reserve_stock db.catalog (combine items) with ⟨catR, trR, oR⟩
      cases oR with
      | some pid =>
        left
        rw [handle_create_order_of_error db user items _ _ _
          (create_order_session_insufficient db user items catR trR pid hne hlen hR)]
      | none =>
        right
        rw [handle_create_order_of_ok db user items _ _ _
          (create_order_session_ok db user items catR trR hne hlen hR)]
    · left
      rw [handle_create_order_of_error db user items _ _ _
        (create_order_session_unknown db user items hne hlen)]

/-! ### Claim theorems -/

/-- C3: a reservation is one conditional update that hits exactly one row
iff the product exists with stock at least the quantity; a hit decrements
that product's stock by the quantity; the guarded update keeps all stocks
non-negative, and so does every complete `create_order` request. -/
theorem reserve_conditional_spec (cat : Catalog) (pid q : Nat)
    (hwf : catalogWF cat) (hnn : stocksNonneg cat) :
    (rowcount cat pid q = 1 ↔ ∃ p ∈ cat, p.id = pid ∧ (q : Int) ≤ p.stock)
    ∧ (rowcount cat pid q = 1 →
        stockOf (applyUpdate cat pid q) pid = (stockOf cat pid).map (· - (q : Int)))
    ∧ stocksNonneg (applyUpdate cat pid q)
    ∧ ∀ (db : DB) (user : String) (items : List (Nat × Nat)),
        stocksNonneg db.catalog →
        stocksNonneg (handle_create_order db user items).db.catalog := by
  refine ⟨rowcount_eq_one_iff cat pid q hwf,
    fun h => stockOf_applyUpdate_self cat pid q hwf h,
    stocksNonneg_applyUpdate cat pid q hnn, ?_⟩
  intro db user items h
  rcases handle_db_cases db user items with hdb | hdb
  · rw [hdb]; exact h
  · rw [hdb]
    exact stocksNonneg_reserve (combine items) db.catalog h

/-- C9: every run of `create_order` preserves, row by row, each catalog
product's id, name and price; a row's stock is untouched unless the guarded
reservation statement for that very product id fired, in which case it lost
exactly the merged requested quantity under the `stock ≥ qty` guard. -/
theorem catalog_frame_spec (db : DB) (user : String) (items : List (Nat × Nat)) :
    List.Forall₂ (prodFrame (combine items)) db.catalog
      (handle_create_order db user items).db.catalog := by
  rcases handle_db_cases db user items with hdb | hdb
  · rw [hdb]
    exact List.forall₂_same.mpr fun p _ => ⟨rfl, rfl, rfl, Or.inl rfl⟩
  · rw [hdb]
    exact reserve_frame (combine items) db.catalog (combine_keys_nodup items)

/-- C7: the catalog service's product update (the only price writer)
touches neither the stored orders nor the stored order items, and the
order-listing read returns exactly the same frozen snapshot after any such
update. -/
theorem order_snapshot_frozen_spec :
    ∀ (db : DB) (pid : Nat) (nm : String) (price stock : Int) (user : String),
      (update_product db pid nm price stock).orders = db.orders
      ∧ (update_product db pid nm price stock).order_items = db.order_items
      ∧ list_my_orders (update_product db pid nm price stock) user
          = list_my_orders db user := by
  intro db pid nm price stock user
  exact ⟨rfl, rfl, rfl⟩

/-- C8, counterexample: an empty-items request is rejected with the
validation error, yet its statement trace is not empty — the session
dependency has already issued `CREATE SCHEMA IF NOT EXISTS` against the
store, so "no database interaction" is false as stated. -/
theorem create_order_empty_counterexample :
    (handle_create_order ⟨[], [], [], 1⟩ "alice" []).response
        = .error .validation
    ∧ (handle_create_order ⟨[], [], [], 1⟩ "alice" []).trace ≠ [] := by
  exact ⟨rfl, by decide⟩

/-- C8, amended: an empty-items request fails with the validation error
and leaves the database unchanged, and the only statement that reached the
store is the session dependency's idempotent `CREATE SCHEMA IF NOT EXISTS`
— no query, no stock mutation, no order row. -/
theorem create_order_empty_spec (db : DB) (user : String) :
    handle_create_order db user [] =
      ⟨.error .validation, db, [Stmt.createSchemaIfNotExists]⟩ := rfl

/-- C5: a request is handled exactly as the request merged to one entry
per product id — response, committed database and statement trace all
agree — and in particular `[(1,2),(1,3)]` merges to `[(1,5)]`. -/
theorem create_order_merge_equiv :
    (∀ (db : DB) (user : String) (items : List (Nat × Nat)),
        handle_create_order db user items
          = handle_create_order db user (combine items))
    ∧ combine [(1, 2), (1, 3)] = [(1, 5)] := by
  refine ⟨?_, by decide⟩
  intro db user items
  by_cases hne : items = []
  · subst hne; rfl
  · have hsess : create_order_session db user items
        = create_order_session db user (combine items) := by
      unfold create_order_session
      rw [isEmpty_false_of_ne_nil hne,
        isEmpty_false_of_ne_nil (combine_ne_nil items hne), combine_idem]
    unfold handle_create_order
    rw [hsess]

/-- C1: a well-formed non-empty request whose merged items all reference
existing products with sufficient stock succeeds: the response is an order
whose total is the sum over distinct products of quantity times the price
at call time (and equals the sum over its own items of qty × price), the
order row is appended, each referenced product's stock drops by exactly
the merged quantity and every other stock is untouched. -/
theorem create_order_success_spec (db : DB) (user : String)
    (items : List (Nat × Nat))
    (hwf : catalogWF db.catalog)
    (hne : items ≠ [])
    (hsuff : ∀ e ∈ combine items,
        ∃ p ∈ db.catalog, p.id = e.1 ∧ (e.2 : Int) ≤ p.stock) :
    ∃ out : OrderOut,
      (handle_create_order db user items).response = .ok out
      ∧ out.total_cents =
          ((combine items).map
            (fun e => (e.2 : Int) * (priceOf db.catalog e.1).getD 0)).sum
      ∧ out.total_cents =
          (out.items.map (fun i => (i.qty : Int) * i.price_cents)).sum
      ∧ (handle_create_order db user items).db.orders
          = db.orders ++ [⟨db.nextOrderId, user, out.total_cents⟩]
      ∧ (∀ e ∈ combine items,
          stockOf (handle_create_order db user items).db.catalog e.1
            = (stockOf db.catalog e.1).map (· - (e.2 : Int)))
      ∧ ∀ x, x ∉ items.map (·.1) →
          stockOf (handle_create_order db user items).db.catalog x
            = stockOf db.catalog x := by
  have hkeysnd := combine_keys_nodup items
  have hsuff' : ∀ e ∈ combine items,
      ∃ s, stockOf db.catalog e.1 = some s ∧ (e.2 : Int) ≤ s := by
    intro e he
    rcases hsuff e he with ⟨p, hp, hid, hs⟩
    exact ⟨p.stock,
      by rw [stockOf, findProduct?_eq_of_mem db.catalog p e.1 hwf hp hid]; rfl, hs⟩
  have hexkeys : ∀ pid ∈ (combine items).map (·.1),
      (findProduct? db.catalog pid).isSome := by
    intro pid hpid
    rcases List.mem_map.mp hpid with ⟨e, he, rfl⟩
    rcases hsuff' e he with ⟨s, hs, _⟩
    rw [stockOf] at hs
    rcases Option.map_eq_some'.mp hs with ⟨p, hp, _⟩
    rw [hp]
    rfl
  have hlen := fetch_prices_length_eq db.catalog ((combine items).map (·.1))
      hwf hkeysnd hexkeys
  obtain ⟨hnone, hdec, hframe, _⟩ :=
    reserve_ok (combine items) db.catalog hwf hkeysnd hsuff'
  rcases hR : reserve_stock db.catalog (combine items) with ⟨catR, trR, oR⟩
  rw [hR] at hnone hdec hframe
  have hoR : oR = none := hnone
  subst hoR
  have hh := handle_create_order_of_ok db user items _ _ _
    (create_order_session_ok db user items catR trR hne hlen hR)
  refine ⟨⟨db.nextOrderId, user, orderTotal db items,
      (snapshotRows db items).map (fun i => ⟨i.product_id, i.qty, i.price_cents⟩)⟩,
    ?_, ?_, ?_, ?_, ?_, ?_⟩
  · rw [hh]
  · show orderTotal db items = _
    rw [orderTotal, foldl_add_map, zero_add, snapshotRows, List.map_map]
    apply congrArg List.sum
    apply List.map_congr_left
    intro e he
    have hmem : e.1 ∈ (combine items).map (·.1) := List.mem_map_of_mem _ he
    simp only [Function.comp_apply]
    rw [lookupPrice?_fetch db.catalog _ e.1 hmem]
  · show orderTotal db items = _
    rw [orderTotal, foldl_add_map, zero_add, List.map_map]
    rfl
  · rw [hh]
  · intro e he
    rw [hh]
    have := hdec e he
    simpa using this
  · intro x hx
    rw [hh]
    have hx' : x ∉ (combine items).map (·.1) := by
      intro hc
      exact hx ((combine_keys_mem items x).mp hc)
    have := hframe x hx'
    simpa using this

/-- The request fails on the first item whose conditional update does not
hit exactly one row, and every stock change of the session is rolled back. -/
theorem create_order_fail_reserve (db : DB) (user : String)
    (items : List (Nat × Nat)) (e₀ : Nat × Nat)
    (hne : items ≠ [])
    (hlen : (fetch_prices db.catalog ((combine items).map (·.1))).length
        = ((combine items).map (·.1)).length)
    (hfind : (combine items).find?
        (fun e => !(rowcount db.catalog e.1 e.2 == 1)) = some e₀) :
    (handle_create_order db user items).response
        = .error (.insufficientStock e₀.1)
    ∧ (handle_create_order db user items).db = db := by
  have hfail := reserve_fail (combine items) db.catalog (combine_keys_nodup items) e₀ hfind
  rcases hR : reserve_stock db.catalog (combine items) with ⟨catR, trR, oR⟩
  rw [hR] at hfail
  have hoR : oR = some e₀.1 := hfail
  subst hoR
  have hh := handle_create_order_of_error db user items _ _ _
    (create_order_session_insufficient db user items catR trR e₀.1 hne hlen hR)
  rw [hh]
  exact ⟨rfl, rfl⟩

/-- C2: when the merged request contains an item whose quantity exceeds the
available stock (all referenced products existing), the request fails with
the insufficient-stock error naming such a product, and the committed
database — every stock value included — is exactly the pre-request one. -/
theorem create_order_insufficient_spec (db : DB) (user : String)
    (items : List (Nat × Nat))
    (hwf : catalogWF db.catalog)
    (hex : ∀ pid ∈ items.map (·.1), (findProduct? db.catalog pid).isSome)
    (hins : ∃ e ∈ combine items,
        ∀ p ∈ db.catalog, p.id = e.1 → p.stock < (e.2 : Int)) :
    ∃ pid,
      (handle_create_order db user items).response
          = .error (.insufficientStock pid)
      ∧ (∃ q, (pid, q) ∈ combine items
          ∧ ∀ p ∈ db.catalog, p.id = pid → p.stock < (q : Int))
      ∧ (handle_create_order db user items).db = db := by
  have hne : items ≠ [] := by
    rcases hins with ⟨e, he, _⟩
    intro hc
    subst hc
    simp [combine, combineAux] at he
  have hexkeys : ∀ pid ∈ (combine items).map (·.1),
      (findProduct? db.catalog pid).isSome := by
    intro pid hpid
    exact hex pid ((combine_keys_mem items pid).mp hpid)
  have hlen := fetch_prices_length_eq db.catalog _ hwf (combine_keys_nodup items) hexkeys
  have hpred : ∃ e ∈ combine items,
      (!(rowcount db.catalog e.1 e.2 == 1)) = true := by
    rcases hins with ⟨e, he, hlow⟩
    refine ⟨e, he, ?_⟩
    simp only [Bool.not_eq_true', beq_eq_false_iff_ne, ne_eq]
    intro hr1
    rcases (rowcount_eq_one_iff db.catalog e.1 e.2 hwf).mp hr1 with ⟨p, hp, hid, hs⟩
    have := hlow p hp hid
    omega
  have hfsome : ((combine items).find?
      (fun e => !(rowcount db.catalog e.1 e.2 == 1))).isSome := by
    rw [List.find?_isSome]
    rcases hpred with ⟨e, he, hpe⟩
    exact ⟨e, he, hpe⟩
  rcases Option.isSome_iff_exists.mp hfsome with ⟨e₀, hfind⟩
  obtain ⟨hresp, hdb⟩ := create_order_fail_reserve db user items e₀ hne hlen hfind
  refine ⟨e₀.1, hresp, ⟨e₀.2, ?_, ?_⟩, hdb⟩
  · have := List.mem_of_find?_eq_some hfind
    simpa using this
  · have hp := List.find?_some hfind
    have hne1 : rowcount db.catalog e₀.1 e₀.2 ≠ 1 := by simpa using hp
    intro p hpmem hpid
    by_contra hge
    push_neg at hge
    have hpos : 0 < rowcount db.catalog e₀.1 e₀.2 :=
      (rowcount_pos_iff db.catalog e₀.1 e₀.2).mpr ⟨p, hpmem, hpid, hge⟩
    have hle := rowcount_le_one db.catalog e₀.1 e₀.2 hwf
    omega

/-- C4: a request referencing an id with no catalog row fails with the
unknown-products error carrying exactly the requested-but-absent ids in
strictly ascending order; the database is unchanged and the only statements
sent were the schema statement and the price query. -/
theorem create_order_unknown_spec (db : DB) (user : String)
    (items : List (Nat × Nat))
    (hwf : catalogWF db.catalog)
    (hmiss : ∃ pid ∈ items.map (·.1), findProduct? db.catalog pid = none) :
    (handle_create_order db user items).response
        = .error (.unknownProducts (missingIds db items))
    ∧ (handle_create_order db user items).db = db
    ∧ (handle_create_order db user items).trace
        = [Stmt.createSchemaIfNotExists,
           Stmt.selectPrices ((combine items).map (·.1))]
    ∧ List.Sorted (· < ·) (missingIds db items)
    ∧ ∀ x, x ∈ missingIds db items ↔
        x ∈ items.map (·.1) ∧ findProduct? db.catalog x = none := by
  have hne : items ≠ [] := by
    rcases hmiss with ⟨pid, hpid, _⟩
    intro hc
    subst hc
    simp at hpid
  have hkeysnd := combine_keys_nodup items
  have hmiss' : ∃ pid ∈ (combine items).map (·.1),
      findProduct? db.catalog pid = none := by
    rcases hmiss with ⟨pid, hpid, hnone⟩
    exact ⟨pid, (combine_keys_mem items pid).mpr hpid, hnone⟩
  have hlt := fetch_prices_length_lt db.catalog _ hwf hkeysnd hmiss'
  have hlen : (fetch_prices db.catalog ((combine items).map (·.1))).length
      ≠ ((combine items).map (·.1)).length := Nat.ne_of_lt hlt
  have hh := handle_create_order_of_error db user items _ _ _
    (create_order_session_unknown db user items hne hlen)
  have hFnodup : (((combine items).map (·.1)).filter
      (fun pid => (lookupPrice? (fetch_prices db.catalog
        ((combine items).map (·.1))) pid).isNone)).Nodup := hkeysnd.filter _
  have hperm : List.Perm (missingIds db items) (((combine items).map (·.1)).filter
      (fun pid => (lookupPrice? (fetch_prices db.catalog
        ((combine items).map (·.1))) pid).isNone)) := by
    unfold missingIds missingOf sortNat
    exact List.perm_insertionSort _ _
  have hsorted_le : List.Sorted (· ≤ ·) (missingIds db items) := by
    unfold missingIds missingOf sortNat
    exact List.sorted_insertionSort _ _
  have hnodup : (missingIds db items).Nodup := hperm.nodup_iff.mpr hFnodup
  refine ⟨by rw [hh], by rw [hh], by rw [hh], hsorted_le.lt_of_le hnodup, ?_⟩
  intro x
  rw [hperm.mem_iff, List.mem_filter]
  constructor
  · rintro ⟨hxk, hxn⟩
    have hxitems := (combine_keys_mem items x).mp hxk
    rw [lookupPrice?_fetch db.catalog _ x hxk] at hxn
    refine ⟨hxitems, ?_⟩
    rw [Option.isNone_iff_eq_none] at hxn
    rw [priceOf] at hxn
    exact Option.map_eq_none'.mp hxn
  · rintro ⟨hxitems, hxnone⟩
    have hxk := (combine_keys_mem items x).mpr hxitems
    refine ⟨hxk, ?_⟩
    rw [lookupPrice?_fetch db.catalog _ x hxk, Option.isNone_iff_eq_none,
      priceOf, hxnone]
    rfl

/-- First item of the (merged) list whose product lacks the requested
stock, in first-occurrence order of the submitted request. -/
def firstInsufficient? (cat : Catalog) (l : List (Nat × Nat)) : Option Nat :=
  (l.find? (fun e => !cat.any (resMatches e.1 e.2))).map (·.1)

/-- C10: with several under-stocked products in one request, the error
names exactly the first insufficient one in the order of first occurrence
in the submitted list: the merged items keep first-occurrence key order and
the reservation loop stops at the first failing conditional update. -/
theorem create_order_first_insufficient_spec (db : DB) (user : String)
    (items : List (Nat × Nat))
    (hwf : catalogWF db.catalog)
    (hex : ∀ pid ∈ items.map (·.1), (findProduct? db.catalog pid).isSome)
    (hins : ∃ e ∈ combine items,
        ∀ p ∈ db.catalog, p.id = e.1 → p.stock < (e.2 : Int)) :
    ∃ pid,
      firstInsufficient? db.catalog (combine items) = some pid
      ∧ (handle_create_order db user items).response
          = .error (.insufficientStock pid)
      ∧ (combine items).map (·.1) = dedupFO (items.map (·.1)) := by
  have hne : items ≠ [] := by
    rcases hins with ⟨e, he, _⟩
    intro hc
    subst hc
    simp [combine, combineAux] at he
  have hexkeys : ∀ pid ∈ (combine items).map (·.1),
      (findProduct? db.catalog pid).isSome := by
    intro pid hpid
    exact hex pid ((combine_keys_mem items pid).mp hpid)
  have hlen := fetch_prices_length_eq db.catalog _ hwf (combine_keys_nodup items) hexkeys
  have hpredeq : ∀ e : Nat × Nat,
      (!db.catalog.any (resMatches e.1 e.2))
        = (!(rowcount db.catalog e.1 e.2 == 1)) := by
    intro e
    have hle := rowcount_le_one db.catalog e.1 e.2 hwf
    have hany : db.catalog.any (resMatches e.1 e.2) = true
        ↔ rowcount db.catalog e.1 e.2 = 1 := by
      rw [List.any_eq_true]
      constructor
      · rintro ⟨p, hp, hm⟩
        have hpos : 0 < rowcount db.catalog e.1 e.2 :=
          (rowcount_pos_iff db.catalog e.1 e.2).mpr ⟨p, hp, resMatches_id _ _ _ hm⟩
        omega
      · intro h1
        rcases (rowcount_pos_iff db.catalog e.1 e.2).mp (by omega) with ⟨p, hp, hid, hs⟩
        exact ⟨p, hp, by simp [resMatches, hid, hs]⟩
    by_cases hb : db.catalog.any (resMatches e.1 e.2) = true
    · rw [hb, hany.mp hb]
      decide
    · have h1 : rowcount db.catalog e.1 e.2 ≠ 1 := fun hc => hb (hany.mpr hc)
      have hb' : db.catalog.any (resMatches e.1 e.2) = false := by
        rw [Bool.eq_false_iff]
        exact hb
      have hbeq : (rowcount db.catalog e.1 e.2 == 1) = false := by
        rw [beq_eq_false_iff_ne]
        exact h1
      rw [hb', hbeq]
  have hfcongr : (combine items).find? (fun e => !db.catalog.any (resMatches e.1 e.2))
      = (combine items).find? (fun e => !(rowcount db.catalog e.1 e.2 == 1)) :=
    find?_congr _ _ _ fun e _ => hpredeq e
  have hpred : ∃ e ∈ combine items,
      (!(rowcount db.catalog e.1 e.2 == 1)) = true := by
    rcases hins with ⟨e, he, hlow⟩
    refine ⟨e, he, ?_⟩
    simp only [Bool.not_eq_true', beq_eq_false_iff_ne, ne_eq]
    intro hr1
    rcases (rowcount_eq_one_iff db.catalog e.1 e.2 hwf).mp hr1 with ⟨p, hp, hid, hs⟩
    have := hlow p hp hid
    omega
  have hfsome : ((combine items).find?
      (fun e => !(rowcount db.catalog e.1 e.2 == 1))).isSome := by
    rw [List.find?_isSome]
    rcases hpred with ⟨e, he, hpe⟩
    exact ⟨e, he, hpe⟩
  rcases Option.isSome_iff_exists.mp hfsome with ⟨e₀, hfind⟩
  obtain ⟨hresp, _⟩ := create_order_fail_reserve db user items e₀ hne hlen hfind
  refine ⟨e₀.1, ?_, hresp, combine_keys_eq_dedupFO items⟩
  rw [firstInsufficient?, hfcongr, hfind]
  rfl

/-! ### Lemmas about the order listing -/

theorem insertDesc_perm (o : OrderRow) (l : List OrderRow) :
    List.Perm (insertDesc o l) (o :: l) := by
  induction l with
  | nil => exact List.Perm.refl _
  | cons x xs ih =>
    rw [insertDesc]
    by_cases h : x.id ≤ o.id
    · rw [if_pos h]
    · rw [if_neg h]
      exact (ih.cons x).trans (List.Perm.swap o x xs)

theorem mem_insertDesc (o b : OrderRow) (l : List OrderRow) :
    b ∈ insertDesc o l ↔ b = o ∨ b ∈ l := by
  rw [(insertDesc_perm o l).mem_iff]
  exact List.mem_cons

theorem insertDesc_sorted (o : OrderRow) (l : List OrderRow)
    (h : l.Pairwise (fun a b => b.id ≤ a.id)) :
    (insertDesc o l).Pairwise (fun a b => b.id ≤ a.id) := by
  induction l with
  | nil => exact List.pairwise_singleton _ _
  | cons x xs ih =>
    rw [List.pairwise_cons] at h
    rw [insertDesc]
    by_cases hx : x.id ≤ o.id
    · rw [if_pos hx, List.pairwise_cons]
      refine ⟨?_, List.pairwise_cons.mpr h⟩
      intro b hb
      rcases List.mem_cons.mp hb with rfl | hmem
      · exact hx
      · exact le_trans (h.1 b hmem) hx
    · rw [if_neg hx, List.pairwise_cons]
      refine ⟨?_, ih h.2⟩
      intro b hb
      rcases (mem_insertDesc o b xs).mp hb with rfl | hmem
      · exact le_of_not_le hx
      · exact h.1 b hmem

theorem sortByIdDesc_perm (l : List OrderRow) :
    List.Perm (sortByIdDesc l) l := by
  induction l with
  | nil => exact List.Perm.refl _
  | cons x xs ih =>
    rw [sortByIdDesc]
    exact (insertDesc_perm x (sortByIdDesc xs)).trans (ih.cons x)

theorem sortByIdDesc_sorted (l : List OrderRow) :
    (sortByIdDesc l).Pairwise (fun a b => b.id ≤ a.id) := by
  induction l with
  | nil => exact List.Pairwise.nil
  | cons x xs ih =>
    rw [sortByIdDesc]
    exact insertDesc_sorted x _ ih

/-- C6: the listing returns the caller's orders and nothing else, strictly
newest first by descending id, each with the items of its own order id and
with the stored total (never recomputed); the request reads only and the
database it commits is unchanged. -/
theorem list_orders_spec (db : DB) (user : String) (hwf : ordersWF db) :
    (∀ o ∈ list_my_orders db user, o.user_id = user)
    ∧ List.Perm ((list_my_orders db user).map
        (fun o => OrderRow.mk o.id o.user_id o.total_cents))
        (db.orders.filter (fun o => o.user_id == user))
    ∧ (list_my_orders db user).Pairwise (fun a b => b.id < a.id)
    ∧ (∀ o ∈ list_my_orders db user, o.items = itemsOf db o.id)
    ∧ (∀ o ∈ list_my_orders db user, ∃ row ∈ db.orders,
        row.id = o.id ∧ o.total_cents = row.total_cents)
    ∧ (handle_list_my_orders db user).2.1 = db := by
  have hperm := sortByIdDesc_perm (db.orders.filter (fun o => o.user_id == user))
  refine ⟨?_, ?_, ?_, ?_, ?_, rfl⟩
  · intro o ho
    rcases List.mem_map.mp ho with ⟨r, hr, rfl⟩
    have hrf := hperm.mem_iff.mp hr
    have := (List.mem_filter.mp hrf).2
    exact eq_of_beq this
  · rw [list_my_orders, List.map_map]
    have hid : ((fun o : OrderOut => OrderRow.mk o.id o.user_id o.total_cents) ∘
        (fun o : OrderRow => OrderOut.mk o.id o.user_id o.total_cents (itemsOf db o.id)))
        = id := funext fun r => rfl
    rw [hid, List.map_id]
    exact hperm
  · rw [list_my_orders, List.pairwise_map]
    have hsorted := sortByIdDesc_sorted (db.orders.filter (fun o => o.user_id == user))
    have hfilter_nodup : ((db.orders.filter (fun o => o.user_id == user)).map
        (·.id)).Nodup := by
      have hsub : List.Sublist ((db.orders.filter (fun o => o.user_id == user)).map (·.id))
          (db.orders.map (·.id)) := (List.filter_sublist db.orders).map _
      exact hwf.sublist hsub
    have hS_nodup : ((sortByIdDesc (db.orders.filter (fun o => o.user_id == user))).map
        (·.id)).Nodup := ((hperm.map (·.id)).nodup_iff).mpr hfilter_nodup
    have hne' : (sortByIdDesc (db.orders.filter (fun o => o.user_id == user))).Pairwise
        (fun a b => a.id ≠ b.id) := (List.pairwise_map).mp hS_nodup
    exact (hsorted.and hne').imp fun h => lt_of_le_of_ne h.1 (Ne.symm h.2)
  · intro o ho
    rcases List.mem_map.mp ho with ⟨r, _, rfl⟩
    rfl
  · intro o ho
    rcases List.mem_map.mp ho with ⟨r, hr, rfl⟩
    have hrf := hperm.mem_iff.mp hr
    exact ⟨r, List.mem_of_mem_filter hrf, rfl, rfl⟩

/-! ### Concrete witnesses -/

/-- A small concrete database: two products, two existing orders. -/
def dbW : DB :=
  ⟨[⟨1, "widget", 500, 5⟩, ⟨2, "gadget", 300, 4⟩],
   [⟨6, "bob", 250⟩, ⟨7, "alice", 100⟩],
   [⟨6, 1, 1, 250⟩, ⟨7, 2, 1, 100⟩], 8⟩

theorem create_order_success_witness :
    catalogWF dbW.catalog
    ∧ ([((1 : Nat), (2 : Nat)), (2, 1), (1, 1)] ≠ ([] : List (Nat × Nat)))
    ∧ (∀ e ∈ combine [((1 : Nat), (2 : Nat)), (2, 1), (1, 1)],
        ∃ p ∈ dbW.catalog, p.id = e.1 ∧ (e.2 : Int) ≤ p.stock)
    ∧ ∃ out : OrderOut,
        (handle_create_order dbW "alice" [(1, 2), (2, 1), (1, 1)]).response = .ok out
        ∧ out.total_cents =
            ((combine [((1 : Nat), (2 : Nat)), (2, 1), (1, 1)]).map
              (fun e => (e.2 : Int) * (priceOf dbW.catalog e.1).getD 0)).sum
        ∧ out.total_cents =
            (out.items.map (fun i => (i.qty : Int) * i.price_cents)).sum
        ∧ (handle_create_order dbW "alice" [(1, 2), (2, 1), (1, 1)]).db.orders
            = dbW.orders ++ [⟨dbW.nextOrderId, "alice", out.total_cents⟩]
        ∧ (∀ e ∈ combine [((1 : Nat), (2 : Nat)), (2, 1), (1, 1)],
            stockOf (handle_create_order dbW "alice" [(1, 2), (2, 1), (1, 1)]).db.catalog e.1
              = (stockOf dbW.catalog e.1).map (· - (e.2 : Int)))
        ∧ ∀ x, x ∉ ([((1 : Nat), (2 : Nat)), (2, 1), (1, 1)]).map (·.1) →
            stockOf (handle_create_order dbW "alice" [(1, 2), (2, 1), (1, 1)]).db.catalog x
              = stockOf dbW.catalog x :=
  ⟨by decide, by decide, by decide,
   create_order_success_spec dbW "alice" [(1, 2), (2, 1), (1, 1)]
     (by decide) (by decide) (by decide)⟩

theorem create_order_insufficient_witness :
    catalogWF dbW.catalog
    ∧ (∀ pid ∈ ([((1 : Nat), (10 : Nat)), (2, 1)]).map (·.1),
        (findProduct? dbW.catalog pid).isSome)
    ∧ (∃ e ∈ combine [((1 : Nat), (10 : Nat)), (2, 1)],
        ∀ p ∈ dbW.catalog, p.id = e.1 → p.stock < (e.2 : Int))
    ∧ ∃ pid,
        (handle_create_order dbW "alice" [(1, 10), (2, 1)]).response
            = .error (.insufficientStock pid)
        ∧ (∃ q, (pid, q) ∈ combine [((1 : Nat), (10 : Nat)), (2, 1)]
            ∧ ∀ p ∈ dbW.catalog, p.id = pid → p.stock < (q : Int))
        ∧ (handle_create_order dbW "alice" [(1, 10), (2, 1)]).db = dbW :=
  ⟨by decide, by decide, by decide,
   create_order_insufficient_spec dbW "alice" [(1, 10), (2, 1)]
     (by decide) (by decide) (by decide)⟩

theorem reserve_conditional_witness :
    catalogWF dbW.catalog
    ∧ stocksNonneg dbW.catalog
    ∧ ((rowcount dbW.catalog 1 2 = 1
          ↔ ∃ p ∈ dbW.catalog, p.id = 1 ∧ (2 : Int) ≤ p.stock)
        ∧ (rowcount dbW.catalog 1 2 = 1 →
            stockOf (applyUpdate dbW.catalog 1 2) 1
              = (stockOf dbW.catalog 1).map (· - (2 : Int)))
        ∧ stocksNonneg (applyUpdate dbW.catalog 1 2)
        ∧ ∀ (db : DB) (user : String) (items : List (Nat × Nat)),
            stocksNonneg db.catalog →
            stocksNonneg (handle_create_order db user items).db.catalog) :=
  ⟨by decide, by decide,
   reserve_conditional_spec dbW.catalog 1 2 (by decide) (by decide)⟩

theorem create_order_unknown_witness :
    catalogWF dbW.catalog
    ∧ (∃ pid ∈ ([((3 : Nat), (1 : Nat)), (1, 2)]).map (·.1),
        findProduct? dbW.catalog pid = none)
    ∧ (handle_create_order dbW "alice" [(3, 1), (1, 2)]).response
        = .error (.unknownProducts (missingIds dbW [(3, 1), (1, 2)]))
    ∧ (handle_create_order dbW "alice" [(3, 1), (1, 2)]).db = dbW
    ∧ (handle_create_order dbW "alice" [(3, 1), (1, 2)]).trace
        = [Stmt.createSchemaIfNotExists,
           Stmt.selectPrices ((combine [((3 : Nat), (1 : Nat)), (1, 2)]).map (·.1))]
    ∧ List.Sorted (· < ·) (missingIds dbW [(3, 1), (1, 2)])
    ∧ ∀ x, x ∈ missingIds dbW [(3, 1), (1, 2)] ↔
        x ∈ ([((3 : Nat), (1 : Nat)), (1, 2)]).map (·.1)
          ∧ findProduct? dbW.catalog x = none := by
  have h := create_order_unknown_spec dbW "alice" [(3, 1), (1, 2)]
    (by decide) (by decide)
  exact ⟨by decide, by decide, h.1, h.2.1, h.2.2.1, h.2.2.2.1, h.2.2.2.2⟩

theorem list_orders_witness :
    ordersWF dbW
    ∧ (∀ o ∈ list_my_orders dbW "bob", o.user_id = "bob")
    ∧ List.Perm ((list_my_orders dbW "bob").map
        (fun o => OrderRow.mk o.id o.user_id o.total_cents))
        (dbW.orders.filter (fun o => o.user_id == "bob"))
    ∧ (list_my_orders dbW "bob").Pairwise (fun a b => b.id < a.id)
    ∧ (∀ o ∈ list_my_orders dbW "bob", o.items = itemsOf dbW o.id)
    ∧ (∀ o ∈ list_my_orders dbW "bob", ∃ row ∈ dbW.orders,
        row.id = o.id ∧ o.total_cents = row.total_cents)
    ∧ (handle_list_my_orders dbW "bob").2.1 = dbW := by
  have h := list_orders_spec dbW "bob" (by decide)
  exact ⟨by decide, h.1, h.2.1, h.2.2.1, h.2.2.2.1, h.2.2.2.2.1, h.2.2.2.2.2⟩

theorem first_insufficient_witness :
    catalogWF dbW.catalog
    ∧ (∀ pid ∈ ([((1 : Nat), (10 : Nat)), (2, 9)]).map (·.1),
        (findProduct? dbW.catalog pid).isSome)
    ∧ (∃ e ∈ combine [((1 : Nat), (10 : Nat)), (2, 9)],
        ∀ p ∈ dbW.catalog, p.id = e.1 → p.stock < (e.2 : Int))
    ∧ ∃ pid,
        firstInsufficient? dbW.catalog (combine [((1 : Nat), (10 : Nat)), (2, 9)])
            = some pid
        ∧ (handle_create_order dbW "alice" [(1, 10), (2, 9)]).response
            = .error (.insufficientStock pid)
        ∧ (combine [((1 : Nat), (10 : Nat)), (2, 9)]).map (·.1)
            = dedupFO (([((1 : Nat), (10 : Nat)), (2, 9)]).map (·.1)) :=
  ⟨by decide, by decide, by decide,
   create_order_first_insufficient_spec dbW "alice" [(1, 10), (2, 9)]
     (by decide) (by decide) (by decide)⟩

end Idvom
